import Mathlib

/-!
Verification of the rating-tracker core (`src/rating_engine.py`) against its
natural-language specification.

Modelling conventions (shallow embedding):

* A pandas `DataFrame` of matches is a `List MatchRow`; the seed-rating table
  is a `List SeedRow`.  Per the interface contract (spec section 6) the
  collaborator delivers a well-typed log, so `date` is an integer day number
  (one day = 1) and `slNo` an integer; only the `result` string may be
  malformed, and it is kept as a raw `String`.
* Python `float` arithmetic is modelled by exact rationals (`Rat`).  The
  exponential `10 ** x` is exact whenever the exponent is an integer; every
  claim below evaluates the formula only at integer exponents (rating
  differences that are multiples of the divisor 150), where the model agrees
  with the source bit-for-bit on the mathematical value.  The `OverflowError`
  of the Python exponential is modelled by an explicit threshold: `10.0 ** e`
  overflows the IEEE double range exactly when `e` exceeds
  `log10(max double) = 308.254...`.
* Python dictionaries are association lists (`alookup`/`aset`): lookup finds
  the first binding, update rewrites it in place, and a fresh key is appended
  at the end — exactly the insertion-order semantics of `dict`.
* `DataFrame.sort_values` is modelled by `List.insertionSort`.  The
  insertion sort is stable while pandas' default quicksort is not; the
  model and the program provably agree wherever the sort key is unique
  (`(Date, SL No)` and `SL No` under the data-model invariants) or the
  input is small enough that numpy's quicksort degenerates to an
  insertion sort (the concrete inputs below).  No universal theorem in
  this file depends on the tie order produced by the rating sort.
* Python string helpers (`str.strip`, `str.split('-')`, `int(...)`,
  `str.lower`, substring `in`) are re-implemented on `List Char` below,
  faithful to CPython for ASCII data: `int` tolerates surrounding
  whitespace, one explicit sign and single underscores between digits.
-/

set_option allowUnsafeReducibility true
attribute [semireducible] Rat.mul Rat.add Rat.sub Rat.inv Rat.div Rat.normalize

namespace RatingTracker

/-! ## Python string and number primitives -/

/-- Characters treated as whitespace by `str.strip` and `int` (ASCII range). -/
def isSpaceChar (c : Char) : Bool :=
  c = ' ' || c = '\t' || c = '\n' || c = '\r' || c = '\x0b' || c = '\x0c'

/-- Remove leading and trailing whitespace from a character list. -/
def trimList (cs : List Char) : List Char :=
  ((cs.dropWhile isSpaceChar).reverse.dropWhile isSpaceChar).reverse

/-- Python `str.strip()`. -/
def pyStrip (s : String) : String :=
  ⟨trimList s.data⟩

/-- Python `str.split('-')`: split on every dash, keeping empty segments. -/
def splitDash : List Char → List (List Char)
  | [] => [[]]
  | c :: rest =>
    if c = '-' then [] :: splitDash rest
    else
      match splitDash rest with
      | [] => [[c]]
      | seg :: segs => (c :: seg) :: segs

/-- Digit run of `int(...)` after the optional sign: decimal digits with
single underscores allowed between digits (CPython grammar).  `acc` is the
value of the digits consumed so far. -/
def pyDigitsAux (acc : Nat) : List Char → Option Nat
  | [] => some acc
  | '_' :: c :: rest =>
    if c.isDigit then pyDigitsAux (acc * 10 + (c.toNat - 48)) rest else none
  | ['_'] => none
  | c :: rest =>
    if c.isDigit then pyDigitsAux (acc * 10 + (c.toNat - 48)) rest else none

/-- Parse a nonempty digit run (underscores allowed between digits). -/
def pyDigits : List Char → Option Nat
  | [] => none
  | '_' :: _ => none
  | c :: rest =>
    if c.isDigit then pyDigitsAux (c.toNat - 48) rest else none

/-- Python `int(s)` on a string: strip whitespace, optional single sign,
then a digit run.  Returns `none` where CPython raises `ValueError`. -/
def pyInt (s : String) : Option Int :=
  match trimList s.data with
  | '+' :: rest => (pyDigits rest).map (fun n => (n : Int))
  | '-' :: rest => (pyDigits rest).map (fun n => -(n : Int))
  | cs => (pyDigits cs).map (fun n => (n : Int))

/-- The result-string parser shared by `calculate_ratings`,
`calculate_championship_stats` and the win tally of the leaderboard:
`parts = result.split('-')`, require exactly two parts, `int(...)` each.
Returns the two scores, or `none` where the source hits its
`continue` / `pass` corruption-tolerance branch. -/
def parseResult (s : String) : Option (Int × Int) :=
  match splitDash s.data with
  | [a, b] =>
    match pyInt ⟨a⟩, pyInt ⟨b⟩ with
    | some x, some y => some (x, y)
    | _, _ => none
  | _ => none

/-- ASCII case fold used for the `special_tag` test (`str.lower`). -/
def lowerList (cs : List Char) : List Char :=
  cs.map Char.toLower

/-- Does `pre` occur as a prefix of `cs`? -/
def startsWithList : List Char → List Char → Bool
  | [], _ => true
  | _ :: _, [] => false
  | a :: as, b :: bs => a = b && startsWithList as bs

/-- Python substring test `needle in hay` on character lists. -/
def hasSubstr (needle : List Char) : List Char → Bool
  | [] => startsWithList needle []
  | c :: rest => startsWithList needle (c :: rest) || hasSubstr needle rest

/-- Python `round(x)`: round half to even (banker's rounding). -/
def pyRound (q : Rat) : Int :=
  let f := Rat.floor q
  let frac := q - (f : Rat)
  if frac < 1/2 then f
  else if 1/2 < frac then f + 1
  else if f % 2 = 0 then f else f + 1

/-- Python `round(x, 2)`: round to two decimal places. -/
def pyRound2 (q : Rat) : Rat :=
  (pyRound (q * 100) : Rat) / 100

/-! ## Python dictionaries as association lists -/

/-- Dictionary lookup: first binding of the key, if any. -/
def alookup {β : Type} : List (String × β) → String → Option β
  | [], _ => none
  | e :: rest, p => if e.1 = p then some e.2 else alookup rest p

/-- Dictionary write `d[p] = v`: rewrite the existing binding in place, or
append a fresh binding at the end (dict insertion order). -/
def aset {β : Type} : List (String × β) → String → β → List (String × β)
  | [], p, v => [(p, v)]
  | e :: rest, p, v => if e.1 = p then (p, v) :: rest else e :: aset rest p v

/-- The key list of a dictionary, in insertion order. -/
def akeys {β : Type} (st : List (String × β)) : List String :=
  st.map Prod.fst

/-- Insert a key at the end of an order-preserving key list unless already
present (how a dict extends its key order). -/
def insertNew (ks : List String) (p : String) : List String :=
  if p ∈ ks then ks else ks ++ [p]

/-- Lookup in a player → count dict, defaulting to 0 (`d.get(p, 0)`). -/
def lookupNat (m : List (String × Nat)) (p : String) : Nat :=
  (alookup m p).getD 0

/-! ## Data model -/

/-- One row of the match-log table (`data.csv`): serial number, calendar
date, the two player names, the raw result string, the two post-match
rating columns and the optional `Special` tag (`none` models a missing
column or a NaN cell). -/
structure MatchRow where
  slNo : Int
  date : Int
  player1 : String
  player2 : String
  result : String
  ratingP1 : Rat
  ratingP2 : Rat
  special : Option String
deriving DecidableEq, Repr

/-- One row of the seed table `initial_ratings.csv`. -/
structure SeedRow where
  player : String
  rating : Rat
deriving DecidableEq, Repr

/-! ## Rating replay engine (`calculate_ratings`) -/

/-- Fixed step size `K_FACTOR = 16` of the update rule. -/
def K_FACTOR : Rat := 16

/-- Fixed divisor `DIVISOR = 150` of the logistic model. -/
def DIVISOR : Rat := 150

/-- Exponent above which `10.0 ** e` exceeds the largest IEEE double and
CPython raises `OverflowError`: `log10(1.7976...e308) = 308.2547...`. -/
def OVERFLOW_LIMIT : Rat := 30825471/100000

/-- The exact value of `10 ** x` for integer `x`; non-integer exponents
(never reached by any claim in this development) are given a dummy value. -/
def tenPow (x : Rat) : Rat :=
  if x.den = 1 then (10 : Rat) ^ x.num else 0

/-- `calculate_win_probability(rating_a, rating_b)`:
`1 / (1 + 10 ** ((rating_b - rating_a) / DIVISOR))`, with the
`OverflowError` handler returning `0.0` when `rating_b > rating_a`
and `1.0` otherwise. -/
def calculate_win_probability (rating_a rating_b : Rat) : Rat :=
  let e := (rating_b - rating_a) / DIVISOR
  if OVERFLOW_LIMIT < e then
    if rating_a < rating_b then 0 else 1
  else
    1 / (1 + tenPow e)

/-- `calculate_new_rating(rating_a, score_a, expected_score_a)`. -/
def calculate_new_rating (rating_a score_a expected_score_a : Rat) : Rat :=
  rating_a + K_FACTOR * (score_a - expected_score_a)

/-- The running `player_ratings` dictionary. -/
abbrev RState : Type := List (String × Rat)

/-- `player_ratings.get(p, 1200)`. -/
def lookupD (st : RState) (p : String) : Rat :=
  (alookup st p).getD 1200

/-- `dict(zip(initial_ratings_df['Player'].str.strip(), initial_ratings_df['Rating']))`. -/
def initRatings (seeds : List SeedRow) : RState :=
  seeds.foldl (fun st s => aset st (pyStrip s.player) s.rating) []

/-- One iteration of the replay loop of `calculate_ratings`: returns the
updated dictionary, the (possibly annotated) row, and the list of writes
performed on `player_ratings` by this row.  A row whose result string does
not parse hits the `continue` branch: nothing is written anywhere. -/
def rateStep (st : RState) (row : MatchRow) : RState × MatchRow × List (String × Rat) :=
  let p1 := pyStrip row.player1
  let p2 := pyStrip row.player2
  let r1 := lookupD st p1
  let r2 := lookupD st p2
  match parseResult row.result with
  | none => (st, row, [])
  | some (s1, s2) =>
    let a1 : Rat := if s1 > s2 then 1 else if s2 > s1 then 0 else 1/2
    let a2 : Rat := if s1 > s2 then 0 else if s2 > s1 then 1 else 1/2
    let e1 := calculate_win_probability r1 r2
    let e2 := calculate_win_probability r2 r1
    let n1 := calculate_new_rating r1 a1 e1
    let n2 := calculate_new_rating r2 a2 e2
    (aset (aset st p1 n1) p2 n2,
     { row with ratingP1 := (pyRound n1 : Rat), ratingP2 := (pyRound n2 : Rat) },
     [(p1, n1), (p2, n2)])

/-- The replay loop: processes the rows in the order given, threading the
`player_ratings` dictionary; also accumulates the full sequence of
dictionary writes. -/
def replayAux (st : RState) : List MatchRow → RState × List MatchRow × List (String × Rat)
  | [] => (st, [], [])
  | row :: rest =>
    let s := rateStep st row
    let r := replayAux s.1 rest
    (r.1, s.2.1 :: r.2.1, s.2.2 ++ r.2.2)

/-- `calculate_ratings(data_df, initial_ratings_df)`: the returned copy of
the match log with the `Rating P1` / `Rating P2` columns overwritten for
every successfully parsed row.  The loop iterates `result_df.iterrows()`,
i.e. the rows in their input order — no sort is performed. -/
def calculate_ratings (rows : List MatchRow) (seeds : List SeedRow) : List MatchRow :=
  (replayAux (initRatings seeds) rows).2.1

/-- The sequence of rating-state updates (writes to `player_ratings`)
performed by `calculate_ratings`, in the order they happen. -/
def ratingUpdates (rows : List MatchRow) (seeds : List SeedRow) : List (String × Rat) :=
  (replayAux (initRatings seeds) rows).2.2

/-- The final `player_ratings` dictionary after the replay. -/
def finalRatings (rows : List MatchRow) (seeds : List SeedRow) : RState :=
  (replayAux (initRatings seeds) rows).1

/-! ## The `(date, sequence_no)` ordering -/

/-- Ascending lexicographic order on `(Date, SL No)` — the sort key of
`sort_values(by=['Date', 'SL No'])`. -/
def dateSlLe (a b : MatchRow) : Prop :=
  a.date < b.date ∨ (a.date = b.date ∧ a.slNo ≤ b.slNo)

instance : DecidableRel dateSlLe := fun a b => by
  unfold dateSlLe; infer_instance

instance : IsTotal MatchRow dateSlLe := by
  constructor
  intro a b
  unfold dateSlLe
  omega

instance : IsTrans MatchRow dateSlLe := by
  constructor
  intro a b c hab hbc
  unfold dateSlLe at *
  omega

/-- The match log sorted by `(date, sequence_no)` ascending (stable). -/
def sortByDateSl (rows : List MatchRow) : List MatchRow :=
  List.insertionSort dateSlLe rows

/-! ## Specification-side reference definitions

The definitions in this block follow the wording of the specification (and
of the claims under audit); they are compared against the source-derived
functions above by the theorems at the end of the file. -/

/-- The canonical result shape named by the spec: exactly two non-negative
integers (plain digit runs) separated by a single separator character. -/
def isPlainResult (s : String) : Bool :=
  match splitDash s.data with
  | [a, b] =>
    !a.isEmpty && !b.isEmpty && a.all Char.isDigit && b.all Char.isDigit
  | _ => false

/-- The `(date, rating_after)` observations one row contributes to player
`p`: the player-1 slot before the player-2 slot. -/
def rowObs (p : String) (r : MatchRow) : List (Int × Rat) :=
  (if pyStrip r.player1 = p then [(r.date, r.ratingP1)] else []) ++
    (if pyStrip r.player2 = p then [(r.date, r.ratingP2)] else [])

/-- Spec section 4.2 step 2: the full chronological sequence of
`(date, rating_after)` observations of one player — every appearance of
the player in the `(date, sequence_no)`-sorted log. -/
def observationsOf (rows : List MatchRow) (p : String) : List (Int × Rat) :=
  (sortByDateSl rows).foldr (fun r acc => rowObs p r ++ acc) []

/-- Spec section 4.2 step 3: the player's current rating — the rating of
the most recent observation. -/
def currentRatingOf (rows : List MatchRow) (p : String) : Rat :=
  (((observationsOf rows p).getLast?).getD (0, 0)).2

/-- Number of appearances of a player in the log (either slot, every row,
parseable or not). -/
def appearanceCount (rows : List MatchRow) (p : String) : Nat :=
  rows.countP (fun r => decide (pyStrip r.player1 = p)) +
    rows.countP (fun r => decide (pyStrip r.player2 = p))

/-- Does this row's result parse with player `p`'s side strictly
outscoring the other? -/
def isWinRow (p : String) (r : MatchRow) : Bool :=
  match parseResult r.result with
  | none => false
  | some (s1, s2) =>
    decide ((s1 > s2 ∧ pyStrip r.player1 = p) ∨ (s2 > s1 ∧ pyStrip r.player2 = p))

/-- Does this row's result parse with player `p` on the strictly losing
side? -/
def isLoseRow (p : String) (r : MatchRow) : Bool :=
  match parseResult r.result with
  | none => false
  | some (s1, s2) =>
    decide ((s1 > s2 ∧ pyStrip r.player2 = p) ∨ (s2 > s1 ∧ pyStrip r.player1 = p))

/-- Number of rows whose result parses and in which the player's side
strictly outscores the other. -/
def strictWinCount (rows : List MatchRow) (p : String) : Nat :=
  rows.countP (isWinRow p)

/-- The players of the log in first-appearance order (player 1 before
player 2 within a row), with duplicates removed keeping first occurrences. -/
def dedupKeepFirst : List String → List String
  | [] => []
  | x :: xs => x :: (dedupKeepFirst xs).filter (fun y => decide (y ≠ x))

/-- All player slots of a row list, in order. -/
def appearList (rows : List MatchRow) : List String :=
  rows.foldr (fun r acc => pyStrip r.player1 :: pyStrip r.player2 :: acc) []

/-- First-appearance order of the players of a row list. -/
def firstAppearanceOrder (rows : List MatchRow) : List String :=
  dedupKeepFirst (appearList rows)

/-! ## Championship tally (`calculate_championship_stats`) -/

/-- The exclusion filter: a row is excluded when its `Special` value
contains, case-insensitively, the substring `"league"` or `"clubmatch"`.
A missing column or NaN cell (`none`) stringifies to `"nan"` in the source
and is therefore never excluded. -/
def isExcluded (tag : Option String) : Bool :=
  match tag with
  | none => false
  | some s =>
    hasSubstr "league".data (lowerList s.data) ||
    hasSubstr "clubmatch".data (lowerList s.data)

/-- Ascending order on `SL No` — the key of `sort_values('SL No')`. -/
def slLe (a b : MatchRow) : Prop :=
  a.slNo ≤ b.slNo

instance : DecidableRel slLe := fun a b => by
  unfold slLe; infer_instance

instance : IsTotal MatchRow slLe := by
  constructor
  intro a b
  unfold slLe
  omega

instance : IsTrans MatchRow slLe := by
  constructor
  intro a b c hab hbc
  unfold slLe at *
  omega

/-- Ascending order on plain integers, for the group keys of `groupby`
(pandas sorts group keys ascending). -/
def intLe (a b : Int) : Prop := a ≤ b

instance : DecidableRel intLe := fun a b => by
  unfold intLe; infer_instance

instance : IsTotal Int intLe := by
  constructor; intro a b; unfold intLe; omega

instance : IsTrans Int intLe := by
  constructor; intro a b c hab hbc; unfold intLe at *; omega

/-- The distinct dates appearing in a list of rows, in ascending order —
the group keys of `groupby(df['Date'].dt.date)`. -/
def datesOf (rows : List MatchRow) : List Int :=
  List.insertionSort intLe (rows.map (fun r => r.date)).dedup

/-- The row selected by `sort_values('SL No').groupby(Date).last()` for one
date group: the last row, in `SL No` order, among the rows of that date. -/
def dayFinal (rows : List MatchRow) (d : Int) : Option MatchRow :=
  (List.insertionSort slLe (rows.filter (fun r => r.date == d))).getLast?

/-- `d[p] = d.get(p, 0) + 1` guarded by the truthiness test `if winner:`
(an empty name is falsy in Python and receives no credit). -/
def credit (m : List (String × Nat)) (p : String) : List (String × Nat) :=
  if p = "" then m else aset m p ((alookup m p).getD 0 + 1)

/-- Processing of one daily final: parse its result; a strict winner gets a
title, the loser a runner-up entry; a draw or an unparseable result
credits nobody. -/
def champStep (acc : List (String × Nat) × List (String × Nat)) (row : MatchRow) :
    List (String × Nat) × List (String × Nat) :=
  let p1 := pyStrip row.player1
  let p2 := pyStrip row.player2
  match parseResult row.result with
  | none => acc
  | some (s1, s2) =>
    if s1 > s2 then (credit acc.1 p1, credit acc.2 p2)
    else if s2 > s1 then (credit acc.1 p2, credit acc.2 p1)
    else acc

/-- The eligible (non-league, non-clubmatch) sublist of the log — the
`filtered_df` of the source. -/
def eligibleRows (rows : List MatchRow) : List MatchRow :=
  rows.filter (fun r => !isExcluded r.special)

/-- `calculate_championship_stats(data_df)`: returns the pair of dicts
`(titles, runner_ups)`. -/
def calculate_championship_stats (rows : List MatchRow) :
    List (String × Nat) × List (String × Nat) :=
  if rows.isEmpty then ([], [])
  else if (eligibleRows rows).isEmpty then ([], [])
  else
    (datesOf (eligibleRows rows)).foldl
      (fun acc d =>
        match dayFinal (eligibleRows rows) d with
        | none => acc
        | some row => champStep acc row)
      ([], [])

/-- The eligible match with the maximum `sequence_no` on a given date —
the day's final as worded by the spec. -/
def argmaxSl : List MatchRow → Option MatchRow
  | [] => none
  | r :: rest =>
    match argmaxSl rest with
    | none => some r
    | some m => some (if r.slNo ≤ m.slNo then m else r)

/-- Spec-side day classification: does player `p` win the final of date
`d`?  True exactly when the eligible matches of `d` are nonempty, their
maximum-`sequence_no` match has a parseable result, and `p`'s side
strictly outscores the other. -/
def dayFinalWins (rows : List MatchRow) (d : Int) (p : String) : Bool :=
  match argmaxSl ((eligibleRows rows).filter (fun r => r.date == d)) with
  | none => false
  | some row => isWinRow p row

/-- Spec-side day classification: is player `p` the loser (runner-up) of
the final of date `d`? -/
def dayFinalLoses (rows : List MatchRow) (d : Int) (p : String) : Bool :=
  match argmaxSl ((eligibleRows rows).filter (fun r => r.date == d)) with
  | none => false
  | some row => isLoseRow p row

/-! ## Leaderboard (`generate_leaderboard_with_changes`) -/

/-- One row of the returned leaderboard table. -/
structure LBRow where
  rank : Nat
  player : String
  lastRating : Rat
  matchesPlayed : Nat
  won : Nat
  winPct : Rat
  ratingChange : Rat
  isNew : Bool
  titles : Nat
deriving DecidableEq, Repr

/-- The `player_ratings_history` dictionary: player → chronological list of
`(date, rating_after)` observations. -/
abbrev HistMap : Type := List (String × List (Int × Rat))

/-- `player_ratings_history[p].append(obs)` (creating the entry first when
missing, as the source does). -/
def pushObs (h : HistMap) (p : String) (obs : Int × Rat) : HistMap :=
  aset h p ((alookup h p).getD [] ++ [obs])

/-- The observation list recorded for one player (empty when absent). -/
def histLookup (h : HistMap) (p : String) : List (Int × Rat) :=
  (alookup h p).getD []

/-- Build `player_ratings_history` by one pass over the (sorted) rows:
each row contributes the `Rating P1` observation for player 1 and then the
`Rating P2` observation for player 2. -/
def buildHistory (rows : List MatchRow) : HistMap :=
  rows.foldl
    (fun h r =>
      pushObs (pushObs h (pyStrip r.player1) (r.date, r.ratingP1))
        (pyStrip r.player2) (r.date, r.ratingP2))
    []

/-- The `stats` dictionary: player → `(matches, won)`. -/
abbrev StatMap : Type := List (String × (Nat × Nat))

/-- The `(matches, won)` pair recorded for one player (`(0, 0)` when
absent). -/
def lookupStat (st : StatMap) (p : String) : Nat × Nat :=
  (alookup st p).getD (0, 0)

/-- `if p not in stats: stats[p] = {'matches': 0, 'won': 0}`. -/
def ensureStat (st : StatMap) (p : String) : StatMap :=
  match alookup st p with
  | some _ => st
  | none => st ++ [(p, (0, 0))]

/-- `stats[p]['matches'] += 1`. -/
def bumpMatches (st : StatMap) (p : String) : StatMap :=
  let s := (alookup st p).getD (0, 0)
  aset st p (s.1 + 1, s.2)

/-- `stats[p]['won'] += 1`. -/
def bumpWon (st : StatMap) (p : String) : StatMap :=
  let s := (alookup st p).getD (0, 0)
  aset st p (s.1, s.2 + 1)

/-- One row of the basic-stats accumulation loop: both players' match
counters are incremented unconditionally; the win counter only when the
result parses and one side strictly outscores the other. -/
def statStep (st : StatMap) (r : MatchRow) : StatMap :=
  let p1 := pyStrip r.player1
  let p2 := pyStrip r.player2
  let st1 := bumpMatches (bumpMatches (ensureStat (ensureStat st p1) p2) p1) p2
  match parseResult r.result with
  | none => st1
  | some (s1, s2) =>
    if s1 > s2 then bumpWon st1 p1
    else if s2 > s1 then bumpWon st1 p2
    else st1

/-- Descending order on `Last Rating` — the key of
`sort_values(by='Last Rating', ascending=False)`. -/
def ratingGe (a b : LBRow) : Prop :=
  b.lastRating ≤ a.lastRating

instance : DecidableRel ratingGe := fun a b => by
  unfold ratingGe; infer_instance

instance : IsTotal LBRow ratingGe := by
  constructor
  intro a b
  unfold ratingGe
  exact le_total b.lastRating a.lastRating

instance : IsTrans LBRow ratingGe := by
  constructor
  intro a b c hab hbc
  unfold ratingGe at *
  exact le_trans hbc hab

/-- `df.insert(0, 'Rank', range(1, len(df) + 1))`: number the sorted rows
starting from `n`. -/
def assignRanks (n : Nat) : List LBRow → List LBRow
  | [] => []
  | r :: rest => { r with rank := n } :: assignRanks (n + 1) rest

/-- The leaderboard row computed for one `(player, history)` entry of
`player_ratings_history` (rank still unassigned). -/
def mkLBRow (titles : List (String × Nat)) (stats : StatMap) (cutoff : Int)
    (p : String) (h : List (Int × Rat)) : LBRow :=
  let current := ((h.getLast?).getD (0, 0)).2
  let relevant := h.filter (fun o => decide (o.1 ≤ cutoff))
  let isNew := relevant.isEmpty
  let change := if relevant.isEmpty then 0 else current - ((relevant.getLast?).getD (0, 0)).2
  let s := (alookup stats p).getD (0, 0)
  { rank := 0
    player := p
    lastRating := current
    matchesPlayed := s.1
    won := s.2
    winPct := pyRound2 (if s.1 > 0 then (s.2 : Rat) / (s.1 : Rat) else 0)
    ratingChange := change
    isNew := isNew
    titles := (alookup titles p).getD 0 }

/-- The maximum of the `Date` column (`data_df['Date'].max()`); only used
on a nonempty log. -/
def maxDate (rows : List MatchRow) : Int :=
  ((rows.map (fun r => r.date)).max?).getD 0

/-- `generate_leaderboard_with_changes(data_df)`: one ranked row per player
appearing in the log, sorted by current rating descending (stable), with
day-over-day change relative to `max(Date) - 1 day` and title counts. -/
def generate_leaderboard_with_changes (rows : List MatchRow) : List LBRow :=
  if rows.isEmpty then []
  else
    assignRanks 1
      (List.insertionSort ratingGe
        ((buildHistory (sortByDateSl rows)).map
          (fun en =>
            mkLBRow (calculate_championship_stats rows).1
              ((sortByDateSl rows).foldl statStep []) (maxDate rows - 1)
              en.1 en.2)))

/-! ## Frame effects

The source functions are embedded as pure functions above; the only write
any of them performs into a caller-owned frame is
`data_df['Date'] = pd.to_datetime(data_df['Date'])` at the top of
`generate_leaderboard_with_changes` (`calculate_ratings` and
`calculate_championship_stats` operate on `data_df.copy()`).  The
functions below return the caller's match log as it stands after the call. -/

/-- Modelled from the interface contract (spec section 6): `pd.to_datetime`
applied to an already well-typed date value is the identity. -/
def pdToDatetime (d : Int) : Int := d

/-- The caller's match log after `calculate_ratings` returns: the function
writes only into its private copy. -/
def logAfterCalculateRatings (rows : List MatchRow) (seeds : List SeedRow) :
    List MatchRow :=
  let _ := calculate_ratings rows seeds
  rows

/-- The caller's seed table after `calculate_ratings` returns (read-only). -/
def seedsAfterCalculateRatings (rows : List MatchRow) (seeds : List SeedRow) :
    List SeedRow :=
  let _ := calculate_ratings rows seeds
  seeds

/-- The caller's match log after `calculate_championship_stats` returns:
the function works on `data_df.copy()`. -/
def logAfterChampionshipStats (rows : List MatchRow) : List MatchRow :=
  let _ := calculate_championship_stats rows
  rows

/-- The caller's match log after `generate_leaderboard_with_changes`
returns: the `Date` column has been reassigned to
`pd.to_datetime(data_df['Date'])` in place; every other column is
untouched. -/
def logAfterLeaderboard (rows : List MatchRow) : List MatchRow :=
  let _ := generate_leaderboard_with_changes rows
  rows.map (fun r => { r with date := pdToDatetime r.date })

/-! ## Concrete inputs used by counterexamples and witnesses -/

/-- A decisive match between C and D on day 1, serial number 1. -/
def mCD : MatchRow :=
  { slNo := 1, date := 1, player1 := "C", player2 := "D", result := "2-0",
    ratingP1 := 0, ratingP2 := 0, special := none }

/-- A decisive match between A and B on day 2, serial number 2. -/
def mAB : MatchRow :=
  { slNo := 2, date := 2, player1 := "A", player2 := "B", result := "2-0",
    ratingP1 := 0, ratingP2 := 0, special := none }

/-- A match whose result string carries surrounding whitespace: not of the
plain `digits-digits` shape, yet accepted by Python `int`. -/
def mSpacey : MatchRow :=
  { slNo := 1, date := 1, player1 := "A", player2 := "B", result := " 2 - 0 ",
    ratingP1 := 0, ratingP2 := 0, special := none }

/-- A match whose result string does not parse at all. -/
def mBad : MatchRow :=
  { slNo := 1, date := 1, player1 := "A", player2 := "B", result := "walkover",
    ratingP1 := 0, ratingP2 := 0, special := none }

/-- A drawn, already-rated match between A and B on day 2. -/
def mDrawAB : MatchRow :=
  { slNo := 2, date := 2, player1 := "A", player2 := "B", result := "1-1",
    ratingP1 := 1200, ratingP2 := 1200, special := none }

/-- A drawn, already-rated match between C and D on day 1. -/
def mDrawCD : MatchRow :=
  { slNo := 1, date := 1, player1 := "C", player2 := "D", result := "1-1",
    ratingP1 := 1200, ratingP2 := 1200, special := none }

/-- Seed table rating both A and B at 1200. -/
def seedsAB : List SeedRow :=
  [{ player := "A", rating := 1200 }, { player := "B", rating := 1200 }]

/-- A league-tagged match on day 5 (excluded from final detection). -/
def mLeague : MatchRow :=
  { slNo := 10, date := 5, player1 := "A", player2 := "B", result := "2-0",
    ratingP1 := 0, ratingP2 := 0, special := some "League" }

/-- A clubmatch-tagged match on day 5 (excluded from final detection). -/
def mClub : MatchRow :=
  { slNo := 11, date := 5, player1 := "C", player2 := "D", result := "2-0",
    ratingP1 := 0, ratingP2 := 0, special := some "Clubmatch" }

/-- An untagged decisive match on day 5 with a smaller serial number than
the two tagged ones. -/
def mOpen : MatchRow :=
  { slNo := 9, date := 5, player1 := "E", player2 := "F", result := "3-1",
    ratingP1 := 0, ratingP2 := 0, special := none }

/-! ## Association-list lemmas -/

theorem alookup_aset {β : Type} (st : List (String × β)) (p q : String) (v : β) :
    alookup (aset st p v) q = if p = q then some v else alookup st q := by
  induction st with
  | nil =>
    by_cases h : p = q <;> simp [aset, alookup, h]
  | cons e rest ih =>
    by_cases he : e.1 = p
    · by_cases h : p = q <;> simp [aset, alookup, he, h]
    · by_cases h : p = q
      · subst h
        simp [aset, alookup, he, ih]
      · by_cases heq : e.1 = q
        · have h2 : ¬q = p := fun hh => h hh.symm
          simp [aset, alookup, he, h, heq, h2, ih]
        · simp [aset, alookup, he, h, heq, ih]

theorem alookup_append_of_none {β : Type} {l1 : List (String × β)}
    (l2 : List (String × β)) {p : String} (h : alookup l1 p = none) :
    alookup (l1 ++ l2) p = alookup l2 p := by
  induction l1 with
  | nil => rfl
  | cons e rest ih =>
    by_cases he : e.1 = p
    · simp [alookup, he] at h
    · simp only [alookup, he, if_false, List.cons_append] at h ⊢
      exact ih h

theorem alookup_append_of_some {β : Type} {l1 : List (String × β)}
    (l2 : List (String × β)) {p : String} {v : β} (h : alookup l1 p = some v) :
    alookup (l1 ++ l2) p = some v := by
  induction l1 with
  | nil => simp [alookup] at h
  | cons e rest ih =>
    by_cases he : e.1 = p
    · simp only [alookup, he, if_true] at h ⊢
      simpa using h
    · simp only [alookup, he, if_false] at h ⊢
      exact ih h

theorem akeys_nil {β : Type} : akeys ([] : List (String × β)) = [] := rfl

theorem akeys_cons {β : Type} (e : String × β) (rest : List (String × β)) :
    akeys (e :: rest) = e.1 :: akeys rest := rfl

theorem alookup_eq_none_iff {β : Type} (st : List (String × β)) (p : String) :
    alookup st p = none ↔ p ∉ akeys st := by
  induction st with
  | nil => simp [alookup, akeys_nil]
  | cons e rest ih =>
    rw [akeys_cons]
    by_cases he : e.1 = p
    · subst he
      simp [alookup]
    · simp only [alookup, if_neg he, List.mem_cons]
      rw [ih]
      constructor
      · intro h hh
        rcases hh with hh | hh
        · exact he hh.symm
        · exact h hh
      · intro h hh
        exact h (Or.inr hh)

theorem akeys_aset_of_mem {β : Type} {st : List (String × β)} {p : String}
    (v : β) (h : p ∈ akeys st) : akeys (aset st p v) = akeys st := by
  induction st with
  | nil => simp [akeys_nil] at h
  | cons e rest ih =>
    by_cases he : e.1 = p
    · rw [show aset (e :: rest) p v = (p, v) :: rest from by simp [aset, he]]
      rw [akeys_cons, akeys_cons, he]
    · have hr : p ∈ akeys rest := by
        rw [akeys_cons, List.mem_cons] at h
        rcases h with hh | hh
        · exact absurd hh.symm he
        · exact hh
      rw [show aset (e :: rest) p v = e :: aset rest p v from by simp [aset, he]]
      rw [akeys_cons, akeys_cons, ih hr]

theorem akeys_aset_of_not_mem {β : Type} {st : List (String × β)} {p : String}
    (v : β) (h : p ∉ akeys st) : akeys (aset st p v) = akeys st ++ [p] := by
  induction st with
  | nil => simp [aset, akeys_nil, akeys_cons]
  | cons e rest ih =>
    have he : ¬e.1 = p := by
      intro hh
      exact h (by rw [akeys_cons, hh]; exact List.mem_cons_self p _)
    have hr : p ∉ akeys rest := by
      intro hh
      exact h (by rw [akeys_cons]; exact List.mem_cons_of_mem _ hh)
    rw [show aset (e :: rest) p v = e :: aset rest p v from by simp [aset, he]]
    rw [akeys_cons, ih hr, akeys_cons, List.cons_append]

theorem nodup_akeys_aset {β : Type} {st : List (String × β)} {p : String}
    (v : β) (h : (akeys st).Nodup) : (akeys (aset st p v)).Nodup := by
  by_cases hm : p ∈ akeys st
  · rwa [akeys_aset_of_mem v hm]
  · rw [akeys_aset_of_not_mem v hm]
    apply List.Nodup.append h (List.nodup_singleton p)
    intro x hx hx2
    rw [List.mem_singleton] at hx2
    subst hx2
    exact hm hx

theorem alookup_of_mem_of_nodup {β : Type} {st : List (String × β)}
    {p : String} {v : β} (hn : (akeys st).Nodup) (hm : (p, v) ∈ st) :
    alookup st p = some v := by
  induction st with
  | nil => simp at hm
  | cons e rest ih =>
    rw [akeys_cons] at hn
    have hn2 := List.nodup_cons.mp hn
    rcases List.mem_cons.mp hm with h | h
    · subst h
      simp [alookup]
    · have hk : p ∈ akeys rest := List.mem_map.mpr ⟨(p, v), h, rfl⟩
      have he : ¬e.1 = p := fun hh => hn2.1 (hh ▸ hk)
      simp only [alookup, if_neg he]
      exact ih hn2.2 h

/-! ## History-map lemmas -/

theorem histLookup_pushObs (h : HistMap) (q p : String) (o : Int × Rat) :
    histLookup (pushObs h q o) p =
      histLookup h p ++ (if q = p then [o] else []) := by
  unfold histLookup pushObs
  rw [alookup_aset]
  by_cases hq : q = p
  · subst hq
    simp
  · simp [hq]

theorem histLookup_buildHistory_from (l : List MatchRow) (h : HistMap) (p : String) :
    histLookup
        (l.foldl
          (fun h r =>
            pushObs (pushObs h (pyStrip r.player1) (r.date, r.ratingP1))
              (pyStrip r.player2) (r.date, r.ratingP2)) h) p =
      histLookup h p ++ l.foldr (fun r acc => rowObs p r ++ acc) [] := by
  induction l generalizing h with
  | nil => simp
  | cons r rest ih =>
    simp only [List.foldl_cons, List.foldr_cons, ih, histLookup_pushObs, rowObs]
    by_cases h1 : pyStrip r.player1 = p <;> by_cases h2 : pyStrip r.player2 = p <;>
      simp [h1, h2]

theorem histLookup_buildHistory (l : List MatchRow) (p : String) :
    histLookup (buildHistory l) p = l.foldr (fun r acc => rowObs p r ++ acc) [] := by
  have := histLookup_buildHistory_from l [] p
  simpa [buildHistory, histLookup, alookup] using this

theorem observationsOf_eq_histLookup (rows : List MatchRow) (p : String) :
    observationsOf rows p = histLookup (buildHistory (sortByDateSl rows)) p := by
  rw [histLookup_buildHistory]
  rfl

theorem akeys_pushObs (h : HistMap) (p : String) (o : Int × Rat) :
    akeys (pushObs h p o) = insertNew (akeys h) p := by
  unfold pushObs insertNew
  by_cases hm : p ∈ akeys h
  · rw [akeys_aset_of_mem _ hm, if_pos hm]
  · rw [akeys_aset_of_not_mem _ hm, if_neg hm]

theorem akeys_buildHistory_from (l : List MatchRow) (h : HistMap) :
    akeys
        (l.foldl
          (fun h r =>
            pushObs (pushObs h (pyStrip r.player1) (r.date, r.ratingP1))
              (pyStrip r.player2) (r.date, r.ratingP2)) h) =
      (appearList l).foldl insertNew (akeys h) := by
  induction l generalizing h with
  | nil => rfl
  | cons r rest ih =>
    simp only [List.foldl_cons, ih, akeys_pushObs]
    rfl

theorem foldl_insertNew_eq (xs : List String) (acc : List String) :
    xs.foldl insertNew acc =
      acc ++ (dedupKeepFirst xs).filter (fun y => decide (y ∉ acc)) := by
  induction xs generalizing acc with
  | nil => simp [dedupKeepFirst]
  | cons x xs ih =>
    simp only [List.foldl_cons, dedupKeepFirst, List.filter_cons]
    by_cases hx : x ∈ acc
    · have hin : insertNew acc x = acc := if_pos hx
      have hd : (decide (x ∉ acc)) = false := by simp [hx]
      rw [hin, ih, hd]
      simp only [Bool.false_eq_true, if_false]
      rw [List.filter_filter]
      congr 1
      apply List.filter_congr
      intro y _
      by_cases hyacc : y ∈ acc
      · simp [hyacc]
      · have hyx : y ≠ x := fun hh => hyacc (hh ▸ hx)
        simp [hyacc, hyx]
    · have hin : insertNew acc x = acc ++ [x] := if_neg hx
      have hd : (decide (x ∉ acc)) = true := by simp [hx]
      rw [hin, ih, hd]
      simp only [if_true]
      rw [List.filter_filter, List.append_assoc, List.singleton_append]
      congr 1
      congr 1
      apply List.filter_congr
      intro y _
      by_cases hyx : y = x
      · subst hyx
        simp [hx]
      · by_cases hyacc : y ∈ acc <;> simp [hyacc, hyx]

theorem akeys_buildHistory (l : List MatchRow) :
    akeys (buildHistory l) = firstAppearanceOrder l := by
  unfold buildHistory firstAppearanceOrder
  rw [akeys_buildHistory_from, show akeys ([] : HistMap) = [] from rfl,
    foldl_insertNew_eq]
  simp

theorem mem_dedupKeepFirst {x : String} {l : List String} :
    x ∈ dedupKeepFirst l ↔ x ∈ l := by
  induction l with
  | nil => simp [dedupKeepFirst]
  | cons y ys ih =>
    simp only [dedupKeepFirst, List.mem_cons, List.mem_filter, ih]
    by_cases hxy : x = y <;> simp [hxy, ih]

theorem nodup_dedupKeepFirst (l : List String) : (dedupKeepFirst l).Nodup := by
  induction l with
  | nil => simp [dedupKeepFirst]
  | cons y ys ih =>
    simp only [dedupKeepFirst, List.nodup_cons]
    refine ⟨?_, ih.filter _⟩
    simp

theorem nodup_akeys_buildHistory (l : List MatchRow) :
    (akeys (buildHistory l)).Nodup := by
  rw [akeys_buildHistory]
  exact nodup_dedupKeepFirst _

theorem mem_appearList {l : List MatchRow} {p : String} :
    p ∈ appearList l ↔ ∃ r ∈ l, pyStrip r.player1 = p ∨ pyStrip r.player2 = p := by
  induction l with
  | nil => simp [appearList]
  | cons r rest ih =>
    simp only [appearList, List.foldr_cons, List.mem_cons] at ih ⊢
    constructor
    · rintro (h | h | h)
      · exact ⟨r, Or.inl rfl, Or.inl h.symm⟩
      · exact ⟨r, Or.inl rfl, Or.inr h.symm⟩
      · obtain ⟨r2, hr2, hs⟩ := ih.mp h
        exact ⟨r2, Or.inr hr2, hs⟩
    · rintro ⟨r2, hr2 | hr2, hs⟩
      · subst hr2
        rcases hs with hs | hs
        · exact Or.inl hs.symm
        · exact Or.inr (Or.inl hs.symm)
      · exact Or.inr (Or.inr (ih.mpr ⟨r2, hr2, hs⟩))

/-! ## Stats-map lemmas -/

theorem lookupStat_ensureStat (st : StatMap) (q p : String) :
    lookupStat (ensureStat st q) p = lookupStat st p := by
  unfold ensureStat
  cases hq : alookup st q with
  | some v => rfl
  | none =>
    unfold lookupStat
    cases hp : alookup st p with
    | some w => rw [alookup_append_of_some _ hp]
    | none =>
      rw [alookup_append_of_none _ hp]
      by_cases hqp : q = p
      · subst hqp
        simp [alookup]
      · simp [alookup, hqp]

theorem lookupStat_bumpMatches (st : StatMap) (q p : String) :
    lookupStat (bumpMatches st q) p =
      if q = p then ((lookupStat st p).1 + 1, (lookupStat st p).2)
      else lookupStat st p := by
  unfold bumpMatches lookupStat
  rw [alookup_aset]
  by_cases hqp : q = p
  · subst hqp
    simp
  · simp [hqp]

theorem lookupStat_bumpWon (st : StatMap) (q p : String) :
    lookupStat (bumpWon st q) p =
      if q = p then ((lookupStat st p).1, (lookupStat st p).2 + 1)
      else lookupStat st p := by
  unfold bumpWon lookupStat
  rw [alookup_aset]
  by_cases hqp : q = p
  · subst hqp
    simp
  · simp [hqp]

theorem lookupStat_statStep (st : StatMap) (r : MatchRow) (p : String) :
    lookupStat (statStep st r) p =
      ((lookupStat st p).1 + (if pyStrip r.player1 = p then 1 else 0) +
          (if pyStrip r.player2 = p then 1 else 0),
        (lookupStat st p).2 + (if isWinRow p r then 1 else 0)) := by
  unfold statStep isWinRow
  have hbase :
      lookupStat
          (bumpMatches
            (bumpMatches (ensureStat (ensureStat st (pyStrip r.player1)) (pyStrip r.player2))
              (pyStrip r.player1)) (pyStrip r.player2)) p =
        ((lookupStat st p).1 + (if pyStrip r.player1 = p then 1 else 0) +
            (if pyStrip r.player2 = p then 1 else 0),
          (lookupStat st p).2) := by
    rw [lookupStat_bumpMatches, lookupStat_bumpMatches, lookupStat_ensureStat,
      lookupStat_ensureStat]
    by_cases h1 : pyStrip r.player1 = p <;> by_cases h2 : pyStrip r.player2 = p <;>
      simp [h1, h2]
  cases hp : parseResult r.result with
  | none => simp [hbase]
  | some s =>
    obtain ⟨s1, s2⟩ := s
    by_cases hgt : s1 > s2
    · have hngt : ¬s2 > s1 := by omega
      simp only [hgt, if_true, hngt, if_false, gt_iff_lt, lt_irrefl]
      rw [lookupStat_bumpWon, hbase]
      by_cases h1 : pyStrip r.player1 = p <;> simp [h1, hgt, hngt]
    · by_cases hgt2 : s2 > s1
      · simp only [hgt, hgt2, if_true, if_false]
        rw [lookupStat_bumpWon, hbase]
        by_cases h2 : pyStrip r.player2 = p <;> simp [h2, hgt, hgt2]
      · simp only [hgt, hgt2, if_false]
        rw [hbase]
        simp [hgt, hgt2]

theorem lookupStat_foldl (l : List MatchRow) (st : StatMap) (p : String) :
    lookupStat (l.foldl statStep st) p =
      ((lookupStat st p).1 + appearanceCount l p,
        (lookupStat st p).2 + strictWinCount l p) := by
  induction l generalizing st with
  | nil => simp [appearanceCount, strictWinCount]
  | cons r rest ih =>
    simp only [List.foldl_cons, ih, lookupStat_statStep]
    unfold appearanceCount strictWinCount
    simp only [List.countP_cons, Prod.mk.injEq]
    constructor
    · by_cases h1 : pyStrip r.player1 = p <;> by_cases h2 : pyStrip r.player2 = p <;>
        simp [h1, h2] <;> omega
    · by_cases hw : isWinRow p r <;> simp [hw] <;> omega

theorem lookupStat_stats (rows : List MatchRow) (p : String) :
    lookupStat ((sortByDateSl rows).foldl statStep []) p =
      (appearanceCount rows p, strictWinCount rows p) := by
  rw [lookupStat_foldl]
  have hperm : List.Perm (sortByDateSl rows) rows := List.perm_insertionSort dateSlLe rows
  unfold appearanceCount strictWinCount
  rw [hperm.countP_eq, hperm.countP_eq, hperm.countP_eq]
  simp [lookupStat, alookup]

/-! ## Sorting lemmas -/

theorem sorted_getLast_max {l : List MatchRow} {m : MatchRow}
    (hs : List.Sorted slLe l) (hm : l.getLast? = some m) :
    ∀ x ∈ l, x.slNo ≤ m.slNo := by
  induction l with
  | nil => simp at hm
  | cons a t ih =>
    cases t with
    | nil =>
      simp at hm
      subst hm
      intro x hx
      simp at hx
      subst hx
      exact le_refl _
    | cons b t2 =>
      rw [List.getLast?_cons_cons] at hm
      have hs2 := hs.of_cons
      have hrel := List.rel_of_sorted_cons hs
      intro x hx
      rcases List.mem_cons.mp hx with hx | hx
      · subst hx
        exact hrel m (List.mem_of_getLast?_eq_some hm)
      · exact ih hs2 hm x hx

theorem argmaxSl_eq_none_iff (l : List MatchRow) : argmaxSl l = none ↔ l = [] := by
  cases l with
  | nil => simp [argmaxSl]
  | cons r t =>
    simp only [argmaxSl]
    cases argmaxSl t <;> simp

theorem argmaxSl_spec (l : List MatchRow) (m : MatchRow) (h : argmaxSl l = some m) :
    m ∈ l ∧ ∀ x ∈ l, x.slNo ≤ m.slNo := by
  induction l generalizing m with
  | nil => simp [argmaxSl] at h
  | cons r t ih =>
    simp only [argmaxSl] at h
    cases ht : argmaxSl t with
    | none =>
      rw [ht] at h
      simp at h
      subst h
      have h0 : t = [] := (argmaxSl_eq_none_iff t).mp ht
      subst h0
      refine ⟨List.mem_singleton_self _, ?_⟩
      intro x hx
      simp at hx
      subst hx
      exact le_refl _
    | some m2 =>
      rw [ht] at h
      simp at h
      obtain ⟨hm2, hall⟩ := ih m2 ht
      by_cases hle : r.slNo ≤ m2.slNo
      · rw [if_pos hle] at h
        subst h
        refine ⟨List.mem_cons_of_mem _ hm2, ?_⟩
        intro x hx
        rcases List.mem_cons.mp hx with hx | hx
        · subst hx
          exact hle
        · exact hall x hx
      · rw [if_neg hle] at h
        subst h
        push_neg at hle
        refine ⟨List.mem_cons_self _ _, ?_⟩
        intro x hx
        rcases List.mem_cons.mp hx with hx | hx
        · subst hx
          exact le_refl _
        · exact le_trans (hall x hx) (le_of_lt hle)

theorem sortLast_eq_argmaxSl (g : List MatchRow)
    (hgn : (g.map (fun r => r.slNo)).Nodup) :
    (List.insertionSort slLe g).getLast? = argmaxSl g := by
  by_cases hne : g = []
  · subst hne
    simp [argmaxSl]
  · cases hLast : (List.insertionSort slLe g).getLast? with
    | none =>
      rw [List.getLast?_eq_none_iff] at hLast
      have hlen := List.length_insertionSort slLe g
      rw [hLast] at hlen
      simp at hlen
      exact absurd (List.length_eq_zero.mp hlen.symm) hne
    | some m1 =>
      cases hArg : argmaxSl g with
      | none => exact absurd ((argmaxSl_eq_none_iff g).mp hArg) hne
      | some m2 =>
        congr 1
        obtain ⟨hmem2, hmax2⟩ := argmaxSl_spec g m2 hArg
        have hmem1 : m1 ∈ g := by
          have := List.mem_of_getLast?_eq_some hLast
          rwa [List.mem_insertionSort] at this
        have hmax1 : ∀ x ∈ g, x.slNo ≤ m1.slNo := by
          intro x hx
          exact sorted_getLast_max (List.sorted_insertionSort slLe g) hLast x
            ((List.mem_insertionSort slLe).mpr hx)
        have heq : m1.slNo = m2.slNo :=
          le_antisymm (hmax2 m1 hmem1) (hmax1 m2 hmem2)
        exact List.inj_on_of_nodup_map hgn hmem1 hmem2 heq

theorem dayFinal_eq_argmaxSl (rows : List MatchRow)
    (hn : (rows.map (fun r => r.slNo)).Nodup) (d : Int) :
    dayFinal rows d = argmaxSl (rows.filter (fun r => r.date == d)) := by
  unfold dayFinal
  apply sortLast_eq_argmaxSl
  exact List.Nodup.sublist ((List.filter_sublist rows).map _) hn

theorem dayFinal_mem {rows : List MatchRow} {d : Int} {row : MatchRow}
    (h : dayFinal rows d = some row) : row ∈ rows := by
  unfold dayFinal at h
  have h2 := List.mem_of_getLast?_eq_some h
  rw [List.mem_insertionSort] at h2
  exact (List.mem_filter.mp h2).1

/-! ## Rank-assignment lemmas -/

theorem assignRanks_length (n : Nat) (l : List LBRow) :
    (assignRanks n l).length = l.length := by
  induction l generalizing n with
  | nil => rfl
  | cons r t ih => simp [assignRanks, ih]

theorem assignRanks_map_rank (n : Nat) (l : List LBRow) :
    (assignRanks n l).map (fun e => e.rank) = List.range' n l.length := by
  induction l generalizing n with
  | nil => rfl
  | cons r t ih => simp [assignRanks, ih, List.range'_succ]

theorem mem_assignRanks {n : Nat} {l : List LBRow} {e : LBRow}
    (h : e ∈ assignRanks n l) : ∃ e0 ∈ l, e = { e0 with rank := e.rank } := by
  induction l generalizing n with
  | nil => simp [assignRanks] at h
  | cons r t ih =>
    simp only [assignRanks, List.mem_cons] at h
    rcases h with h | h
    · refine ⟨r, List.mem_cons_self _ _, ?_⟩
      rw [h]
    · obtain ⟨e0, he0, heq⟩ := ih h
      exact ⟨e0, List.mem_cons_of_mem _ he0, heq⟩

theorem assignRanks_map_player (n : Nat) (l : List LBRow) :
    (assignRanks n l).map (fun e => e.player) = l.map (fun e => e.player) := by
  induction l generalizing n with
  | nil => rfl
  | cons r t ih => simp [assignRanks, ih]

theorem pairwise_rating_assignRanks (n : Nat) (l : List LBRow)
    (h : l.Pairwise ratingGe) :
    (assignRanks n l).Pairwise (fun a b => b.lastRating ≤ a.lastRating) := by
  induction l generalizing n with
  | nil => exact List.Pairwise.nil
  | cons r t ih =>
    rw [List.pairwise_cons] at h
    refine List.Pairwise.cons ?_ (ih (n + 1) h.2)
    intro b hb
    obtain ⟨b0, hb0, heq⟩ := mem_assignRanks hb
    rw [heq]
    exact h.1 b0 hb0

/-! ## Championship-tally lemmas -/

theorem lookupNat_credit (m : List (String × Nat)) (q p : String) (hq : q ≠ "") :
    lookupNat (credit m q) p = lookupNat m p + (if q = p then 1 else 0) := by
  unfold credit lookupNat
  rw [if_neg hq, alookup_aset]
  by_cases hqp : q = p
  · subst hqp
    simp [lookupNat]
  · simp [hqp]

theorem champStep_titles (acc : List (String × Nat) × List (String × Nat))
    (row : MatchRow) (p : String)
    (h1 : pyStrip row.player1 ≠ "") (h2 : pyStrip row.player2 ≠ "") :
    lookupNat (champStep acc row).1 p =
      lookupNat acc.1 p + (if isWinRow p row then 1 else 0) := by
  unfold champStep isWinRow
  cases hp : parseResult row.result with
  | none => simp
  | some s =>
    obtain ⟨s1, s2⟩ := s
    by_cases hgt : s1 > s2
    · have hngt : ¬s2 > s1 := by omega
      simp only [hgt, if_true, hngt, if_false]
      rw [lookupNat_credit _ _ _ h1]
      by_cases hp1 : pyStrip row.player1 = p <;> simp [hgt, hngt, hp1]
    · by_cases hgt2 : s2 > s1
      · simp only [hgt, if_false, hgt2, if_true]
        rw [lookupNat_credit _ _ _ h2]
        by_cases hp2 : pyStrip row.player2 = p <;> simp [hgt, hgt2, hp2]
      · simp [hgt, hgt2]

theorem champStep_runners (acc : List (String × Nat) × List (String × Nat))
    (row : MatchRow) (p : String)
    (h1 : pyStrip row.player1 ≠ "") (h2 : pyStrip row.player2 ≠ "") :
    lookupNat (champStep acc row).2 p =
      lookupNat acc.2 p + (if isLoseRow p row then 1 else 0) := by
  unfold champStep isLoseRow
  cases hp : parseResult row.result with
  | none => simp
  | some s =>
    obtain ⟨s1, s2⟩ := s
    by_cases hgt : s1 > s2
    · have hngt : ¬s2 > s1 := by omega
      simp only [hgt, if_true, hngt, if_false]
      rw [lookupNat_credit _ _ _ h2]
      by_cases hp2 : pyStrip row.player2 = p <;> simp [hgt, hngt, hp2]
    · by_cases hgt2 : s2 > s1
      · simp only [hgt, if_false, hgt2, if_true]
        rw [lookupNat_credit _ _ _ h1]
        by_cases hp1 : pyStrip row.player1 = p <;> simp [hgt, hgt2, hp1]
      · simp [hgt, hgt2]

theorem champ_fold_lookup (filtered : List MatchRow) (ds : List Int)
    (acc : List (String × Nat) × List (String × Nat)) (p : String)
    (hnm : ∀ r ∈ filtered, pyStrip r.player1 ≠ "" ∧ pyStrip r.player2 ≠ "") :
    lookupNat
          (ds.foldl
            (fun acc d =>
              match dayFinal filtered d with
              | none => acc
              | some row => champStep acc row) acc).1 p =
        lookupNat acc.1 p +
          ds.countP (fun d =>
            match dayFinal filtered d with
            | none => false
            | some row => isWinRow p row) ∧
      lookupNat
          (ds.foldl
            (fun acc d =>
              match dayFinal filtered d with
              | none => acc
              | some row => champStep acc row) acc).2 p =
        lookupNat acc.2 p +
          ds.countP (fun d =>
            match dayFinal filtered d with
            | none => false
            | some row => isLoseRow p row) := by
  induction ds generalizing acc with
  | nil => simp
  | cons d ds ih =>
    simp only [List.foldl_cons, List.countP_cons]
    cases hd : dayFinal filtered d with
    | none =>
      obtain ⟨iht, ihr⟩ := ih acc
      simp only [hd] at iht ihr ⊢
      constructor
      · rw [iht]
        simp
      · rw [ihr]
        simp
    | some row =>
      obtain ⟨hn1, hn2⟩ := hnm row (dayFinal_mem hd)
      obtain ⟨iht, ihr⟩ := ih (champStep acc row)
      simp only [hd] at iht ihr ⊢
      constructor
      · rw [iht, champStep_titles acc row p hn1 hn2]
        by_cases hw : isWinRow p row <;> simp [hw] <;> omega
      · rw [ihr, champStep_runners acc row p hn1 hn2]
        by_cases hw : isLoseRow p row <;> simp [hw] <;> omega

/-- Claim C3: a match is excluded exactly when its tag contains,
case-insensitively, "league" or "clubmatch" (untagged rows are eligible);
among the eligible matches of each calendar date the one with the maximum
`sequence_no` is the day's final; its winner's title count and its loser's
runner-up count each grow by one, a draw or unparseable result credits
neither, and a date with no eligible match contributes nothing.  Stated as
an exact count: under the data-model invariants (distinct serial numbers,
nonempty trimmed player names) every player's title count equals the
number of dates whose final they won, and their runner-up count the
number of dates whose final they lost. -/
theorem championship_tally_final_classification (rows : List MatchRow)
    (p : String) (hn : (rows.map (fun r => r.slNo)).Nodup)
    (hnm : ∀ r ∈ rows, pyStrip r.player1 ≠ "" ∧ pyStrip r.player2 ≠ "") :
    lookupNat (calculate_championship_stats rows).1 p =
        (datesOf (eligibleRows rows)).countP (fun d => dayFinalWins rows d p) ∧
      lookupNat (calculate_championship_stats rows).2 p =
        (datesOf (eligibleRows rows)).countP (fun d => dayFinalLoses rows d p) := by
  have hnf : ((eligibleRows rows).map (fun r => r.slNo)).Nodup :=
    List.Nodup.sublist ((List.filter_sublist rows).map _) hn
  have hwpred :
      (fun d =>
          match dayFinal (eligibleRows rows) d with
          | none => false
          | some row => isWinRow p row) =
        fun d => dayFinalWins rows d p := by
    funext d
    rw [dayFinal_eq_argmaxSl _ hnf d]
    rfl
  have hlpred :
      (fun d =>
          match dayFinal (eligibleRows rows) d with
          | none => false
          | some row => isLoseRow p row) =
        fun d => dayFinalLoses rows d p := by
    funext d
    rw [dayFinal_eq_argmaxSl _ hnf d]
    rfl
  unfold calculate_championship_stats
  by_cases hre : rows.isEmpty = true
  · have h0 : rows = [] := by
      cases rows with
      | nil => rfl
      | cons a t => simp [List.isEmpty] at hre
    subst h0
    simp [eligibleRows, datesOf, lookupNat, alookup, List.insertionSort]
  · rw [if_neg hre]
    by_cases hfe : (eligibleRows rows).isEmpty = true
    · rw [if_pos hfe]
      have h0 : eligibleRows rows = [] := by
        cases hee : eligibleRows rows with
        | nil => rfl
        | cons a t => rw [hee] at hfe; simp [List.isEmpty] at hfe
      rw [h0]
      simp [datesOf, lookupNat, alookup, List.insertionSort]
    · rw [if_neg hfe]
      obtain ⟨ht, hr⟩ :=
        champ_fold_lookup (eligibleRows rows) (datesOf (eligibleRows rows))
          ([], []) p (fun r hrm => hnm r (List.mem_filter.mp hrm).1)
      rw [← hwpred, ← hlpred]
      constructor
      · rw [ht]
        simp [lookupNat, alookup]
      · rw [hr]
        simp [lookupNat, alookup]

/-- Witness for claim C3: three matches on day 5 tagged "League",
"Clubmatch" and untagged (the untagged one has the smallest serial
number), plus an untagged decisive match on day 1.  The titles of "E"
equal the number of day-finals "E" won — and that count is 1: the
untagged day-5 match is the final even though the tagged ones come later. -/
theorem championship_tally_final_classification_witness :
    (lookupNat (calculate_championship_stats [mLeague, mClub, mOpen, mCD]).1 "E" =
        (datesOf (eligibleRows [mLeague, mClub, mOpen, mCD])).countP
          (fun d => dayFinalWins [mLeague, mClub, mOpen, mCD] d "E")) ∧
      lookupNat (calculate_championship_stats [mLeague, mClub, mOpen, mCD]).1 "E" = 1 := by
  constructor
  · exact (championship_tally_final_classification [mLeague, mClub, mOpen, mCD]
      "E" (by decide) (by decide)).1
  · decide

/-! ## Leaderboard lemmas -/

theorem mkLBRow_player (titles : List (String × Nat)) (stats : StatMap)
    (cutoff : Int) (p : String) (h : List (Int × Rat)) :
    (mkLBRow titles stats cutoff p h).player = p := rfl

theorem mem_leaderboard_decompose {rows : List MatchRow} {e : LBRow}
    (he : e ∈ generate_leaderboard_with_changes rows) :
    ∃ h, alookup (buildHistory (sortByDateSl rows)) e.player = some h ∧
      e = { mkLBRow (calculate_championship_stats rows).1
              ((sortByDateSl rows).foldl statStep []) (maxDate rows - 1)
              e.player h with rank := e.rank } := by
  unfold generate_leaderboard_with_changes at he
  by_cases hre : rows.isEmpty = true
  · rw [if_pos hre] at he
    simp at he
  · rw [if_neg hre] at he
    obtain ⟨e0, he0, heq⟩ := mem_assignRanks he
    rw [List.mem_insertionSort] at he0
    obtain ⟨en, hen, hmk⟩ := List.mem_map.mp he0
    have hp : e.player = en.1 := by
      rw [heq, ← hmk]
      rfl
    refine ⟨en.2, ?_, ?_⟩
    · rw [hp]
      exact alookup_of_mem_of_nodup (nodup_akeys_buildHistory _) (by simpa using hen)
    · rw [hp, heq, ← hmk]

/-- Claim C4: with the cutoff equal to the maximum date in the log minus
one day, a leaderboard entry whose player has an observation dated on or
before the cutoff gets `is_new = false` and
`rating_change = current_rating - rating of the last such observation`,
while a player with no observation on or before the cutoff gets
`is_new = true` (the "new" outcome stays distinguishable from a genuine
zero delta through the flag). -/
theorem leaderboard_rating_change_classification (rows : List MatchRow)
    (e : LBRow) (he : e ∈ generate_leaderboard_with_changes rows) :
    (((observationsOf rows e.player).filter
          (fun o => decide (o.1 ≤ maxDate rows - 1))).isEmpty = true →
        e.isNew = true) ∧
      (((observationsOf rows e.player).filter
            (fun o => decide (o.1 ≤ maxDate rows - 1))).isEmpty = false →
        e.isNew = false ∧
          e.ratingChange =
            currentRatingOf rows e.player -
              ((((observationsOf rows e.player).filter
                    (fun o => decide (o.1 ≤ maxDate rows - 1))).getLast?).getD
                  (0, 0)).2) := by
  obtain ⟨h, hh, heq⟩ := mem_leaderboard_decompose he
  have hobs : observationsOf rows e.player = h := by
    rw [observationsOf_eq_histLookup]
    unfold histLookup
    rw [hh]
    rfl
  unfold currentRatingOf
  rw [hobs]
  constructor
  · intro hemp
    rw [heq]
    simp only [mkLBRow]
    exact hemp
  · intro hne
    rw [heq]
    simp only [mkLBRow]
    refine ⟨hne, ?_⟩
    rw [if_neg (by rw [hne]; exact fun hh2 => by cases hh2)]

/-- Witness for claim C4: in the two-row log `[mDrawAB, mDrawCD]` the
latest date is 2, so the cutoff is day 1; player A's only observation is
on day 2, and A's leaderboard entry carries `is_new = true`. -/
theorem leaderboard_rating_change_classification_witness :
    ({ rank := 3, player := "A", lastRating := 1200, matchesPlayed := 1,
        won := 0, winPct := 0, ratingChange := 0, isNew := true,
        titles := 0 } : LBRow).isNew = true := by
  have h :=
    leaderboard_rating_change_classification [mDrawAB, mDrawCD]
      { rank := 3, player := "A", lastRating := 1200, matchesPlayed := 1,
        won := 0, winPct := 0, ratingChange := 0, isNew := true, titles := 0 }
      (by decide)
  exact h.1 (by decide)

/-- Claim C10: `Matches Played` counts every appearance of the player in
any row of the log — rows with unparseable results included — while `Won`
is incremented only for parsed rows where the player's side strictly
outscores the other; the win-fraction denominator is that all-rows count;
and any player appearing in at least one row (even only in unparseable
ones) receives a leaderboard row. -/
theorem leaderboard_counts_every_row (rows : List MatchRow) :
    (∀ e ∈ generate_leaderboard_with_changes rows,
        e.matchesPlayed = appearanceCount rows e.player ∧
          e.won = strictWinCount rows e.player ∧
          e.winPct =
            pyRound2
              (if 0 < e.matchesPlayed then (e.won : Rat) / (e.matchesPlayed : Rat)
               else 0)) ∧
      ∀ p, 0 < appearanceCount rows p →
        ∃ e ∈ generate_leaderboard_with_changes rows, e.player = p := by
  constructor
  · intro e he
    obtain ⟨h, hh, heq⟩ := mem_leaderboard_decompose he
    have hstats := lookupStat_stats rows e.player
    have hm : e.matchesPlayed = appearanceCount rows e.player := by
      conv_lhs => rw [heq]
      show (lookupStat ((sortByDateSl rows).foldl statStep []) e.player).1 = _
      rw [hstats]
    have hw : e.won = strictWinCount rows e.player := by
      conv_lhs => rw [heq]
      show (lookupStat ((sortByDateSl rows).foldl statStep []) e.player).2 = _
      rw [hstats]
    refine ⟨hm, hw, ?_⟩
    have hpct : e.winPct =
        pyRound2
          (if 0 < (lookupStat ((sortByDateSl rows).foldl statStep []) e.player).1 then
            ((lookupStat ((sortByDateSl rows).foldl statStep []) e.player).2 : Rat) /
              ((lookupStat ((sortByDateSl rows).foldl statStep []) e.player).1 : Rat)
           else 0) := by
      conv_lhs => rw [heq]
      rfl
    rw [hpct, hstats, hm, hw]
  · intro p hp
    have hre : rows.isEmpty = false := by
      cases rows with
      | nil => simp [appearanceCount] at hp
      | cons a t => rfl
    have hp2 : p ∈ appearList (sortByDateSl rows) := by
      rw [mem_appearList]
      unfold appearanceCount at hp
      have hone : (0 < rows.countP (fun r => decide (pyStrip r.player1 = p))) ∨
          0 < rows.countP (fun r => decide (pyStrip r.player2 = p)) := by
        omega
      rcases hone with hone | hone
      · obtain ⟨r, hr, hpr⟩ := List.countP_pos_iff.mp hone
        exact ⟨r, (List.mem_insertionSort dateSlLe).mpr hr,
          Or.inl (of_decide_eq_true hpr)⟩
      · obtain ⟨r, hr, hpr⟩ := List.countP_pos_iff.mp hone
        exact ⟨r, (List.mem_insertionSort dateSlLe).mpr hr,
          Or.inr (of_decide_eq_true hpr)⟩
    have hkeys : p ∈ akeys (buildHistory (sortByDateSl rows)) := by
      rw [akeys_buildHistory]
      exact mem_dedupKeepFirst.mpr hp2
    unfold akeys at hkeys
    obtain ⟨en, hen, hfst⟩ := List.mem_map.mp hkeys
    have hmem : p ∈ (generate_leaderboard_with_changes rows).map
        (fun e => e.player) := by
      unfold generate_leaderboard_with_changes
      rw [if_neg (by rw [hre]; exact Bool.false_ne_true)]
      rw [assignRanks_map_player]
      apply List.mem_map.mpr
      refine ⟨mkLBRow (calculate_championship_stats rows).1
        ((sortByDateSl rows).foldl statStep []) (maxDate rows - 1) en.1 en.2,
        (List.mem_insertionSort ratingGe).mpr (List.mem_map.mpr ⟨en, hen, rfl⟩), ?_⟩
      rw [mkLBRow_player, hfst]
    obtain ⟨e, he, hpe⟩ := List.mem_map.mp hmem
    exact ⟨e, he, hpe⟩

/-- Witness for claim C10 at the log `[mBad]` (one unparseable row): the
player "A" appearing only there still has a leaderboard row, with one
match played and zero wins. -/
theorem leaderboard_counts_every_row_witness :
    (∃ e ∈ generate_leaderboard_with_changes [mBad], e.player = "A") ∧
      appearanceCount [mBad] "A" = 1 ∧ strictWinCount [mBad] "A" = 0 := by
  refine ⟨(leaderboard_counts_every_row [mBad]).2 "A" (by decide), by decide, by decide⟩

/-- Claim C5, counterexample: the two-row log `[mDrawAB, mDrawCD]` lists
the day-2 match first; all four players end at rating 1200, so by the
claim the rank order on this all-tied leaderboard would be the players'
first-appearance order in the input, A, B, C, D.  The source builds its
per-player tables from the `(date, sequence_no)`-sorted log, so the
actual order is C, D, A, B. -/
theorem leaderboard_tiebreak_not_input_order :
    (∀ e ∈ generate_leaderboard_with_changes [mDrawAB, mDrawCD],
        e.lastRating = 1200) ∧
      firstAppearanceOrder [mDrawAB, mDrawCD] = ["A", "B", "C", "D"] ∧
      (generate_leaderboard_with_changes [mDrawAB, mDrawCD]).map
          (fun e => (e.rank, e.player)) =
        [(1, "C"), (2, "D"), (3, "A"), (4, "B")] ∧
      (generate_leaderboard_with_changes [mDrawAB, mDrawCD]).map
          (fun e => e.player) ≠
        firstAppearanceOrder [mDrawAB, mDrawCD] := by
  decide

/-- Claim C5, amended: the leaderboard rows are sorted by current rating
descending and carry ranks 1..N in that order, and the returned rows are
exactly one per player of the log (their player column is a permutation
of the log's players).  The relative order of players with equal current
rating is NOT the players' first-appearance order in the input; nor is
any particular tie order guaranteed: the source sorts with pandas'
default quicksort, which is not stable in general, over rows built in
`(date, sequence_no)`-sorted first-appearance order, so the tie order is
implementation-defined (on small leaderboards, where numpy's sort
degenerates to a stable insertion sort, it is observably the sorted-log
first-appearance order, as in the counterexample). -/
theorem leaderboard_rank_order_and_row_set (rows : List MatchRow) :
    ((generate_leaderboard_with_changes rows).map (fun e => e.rank) =
        List.range' 1 (generate_leaderboard_with_changes rows).length) ∧
      (generate_leaderboard_with_changes rows).Pairwise
        (fun a b => b.lastRating ≤ a.lastRating) ∧
      List.Perm
        ((generate_leaderboard_with_changes rows).map (fun e => e.player))
        (firstAppearanceOrder (sortByDateSl rows)) := by
  by_cases hre : rows.isEmpty = true
  · have h0 : rows = [] := by
      cases rows with
      | nil => rfl
      | cons a t => simp [List.isEmpty] at hre
    subst h0
    exact ⟨by decide, by decide, List.Perm.nil⟩
  · unfold generate_leaderboard_with_changes
    rw [if_neg hre]
    refine ⟨?_, ?_, ?_⟩
    · rw [assignRanks_map_rank, assignRanks_length]
    · exact pairwise_rating_assignRanks _ _ (List.sorted_insertionSort ratingGe _)
    · rw [assignRanks_map_player]
      have hperm :=
        (List.perm_insertionSort ratingGe
          ((buildHistory (sortByDateSl rows)).map
            (fun en =>
              mkLBRow (calculate_championship_stats rows).1
                ((sortByDateSl rows).foldl statStep []) (maxDate rows - 1)
                en.1 en.2))).map (fun e => e.player)
      refine hperm.trans ?_
      rw [List.map_map]
      have hmapfst :
          List.map
              ((fun e : LBRow => e.player) ∘ fun en =>
                mkLBRow (calculate_championship_stats rows).1
                  ((sortByDateSl rows).foldl statStep []) (maxDate rows - 1)
                  en.1 en.2)
              (buildHistory (sortByDateSl rows)) =
            List.map Prod.fst (buildHistory (sortByDateSl rows)) := rfl
      rw [hmapfst,
        show List.map Prod.fst (buildHistory (sortByDateSl rows)) =
          akeys (buildHistory (sortByDateSl rows)) from rfl,
        akeys_buildHistory (sortByDateSl rows)]

/-- Claim C1: the Rating Replay Engine is required to perform its rating
updates in ascending `(date, sequence_no)` order for every input log.  The
source's `calculate_ratings` iterates `result_df.iterrows()` — the input
array order — without any sort: on a two-row log given latest-first, the
sequence of writes to `player_ratings` is the input order, not the
`(date, sequence_no)` order, so the claimed property fails. -/
theorem calculate_ratings_ignores_chronological_order :
    ratingUpdates [mAB, mCD] [] =
        [("A", 1208), ("B", 1192), ("C", 1208), ("D", 1192)] ∧
      ratingUpdates (sortByDateSl [mAB, mCD]) [] =
        [("C", 1208), ("D", 1192), ("A", 1208), ("B", 1192)] ∧
      ratingUpdates [mAB, mCD] [] ≠ ratingUpdates (sortByDateSl [mAB, mCD]) [] := by
  decide

/-- Claim C2, counterexample: the result string `" 2 - 0 "` is not two
plain non-negative integers separated by a single separator, yet
`calculate_ratings` does not skip it — Python `int` strips whitespace, so
the row is rated (1208/1192) and the rating state is modified. -/
theorem nonplain_result_still_rated :
    isPlainResult mSpacey.result = false ∧
      calculate_ratings [mSpacey] [] =
        [{ mSpacey with ratingP1 := 1208, ratingP2 := 1192 }] ∧
      finalRatings [mSpacey] [] ≠ initRatings [] := by
  decide

/-- Claim C2, amended: for every match whose result string fails the
source's parse (`split('-')` into exactly two parts, each accepted by
Python `int`), the replay skips the match atomically: the row is emitted
unchanged (no rating written), the rating state and the update trace are
exactly those of the remaining matches, and the replay continues (the
function is total, so no exception escapes). -/
theorem unparsed_result_skipped_atomically (st : RState) (row : MatchRow)
    (rest : List MatchRow) (h : parseResult row.result = none) :
    replayAux st (row :: rest) =
      ((replayAux st rest).1, row :: (replayAux st rest).2.1,
        (replayAux st rest).2.2) := by
  simp [replayAux, rateStep, h]

/-- Witness for the amended claim C2 at a concrete malformed row. -/
theorem unparsed_result_skipped_atomically_witness :
    parseResult mBad.result = none ∧
      replayAux [] [mBad] = (([] : RState), [mBad], ([] : List (String × Rat))) := by
  constructor
  · decide
  · rw [unparsed_result_skipped_atomically [] mBad [] (by decide)]
    decide

/-- Claim C6, counterexample: at ratings exactly 3000 points apart the
exponent is 20, far below the overflow threshold, so no clamping happens:
the probability returned for the lower-rated side is `1/(1+10^20)`, which
is neither exactly 0.0 nor exactly 1.0. -/
theorem win_probability_not_exact_at_3000_apart :
    calculate_win_probability 1200 4200 ≠ 0 ∧
      calculate_win_probability 1200 4200 ≠ 1 := by
  decide

/-- Claim C6, amended: the win-probability computation is a total function
(never raises, and over the rational model never yields an undefined
value); when the exponent overflows the double range it clamps to 0.0
when the opponent's rating is higher and 1.0 otherwise; for ratings
exactly 3000 points apart no overflow occurs and the lower-rated side
receives the exact value `1/(1+10^20)` — positive, below `10^-19`, hence
close to but not exactly 0.0 — while the higher-rated side receives its
complement, close to but (in exact arithmetic) not exactly 1.0. -/
theorem win_probability_clamp_and_gap (ra : Rat) :
    (∀ rb, OVERFLOW_LIMIT < (rb - ra) / DIVISOR →
        calculate_win_probability ra rb = if ra < rb then 0 else 1) ∧
      calculate_win_probability ra (ra + 3000) = 1 / (1 + 10 ^ (20 : Nat)) ∧
      0 < calculate_win_probability ra (ra + 3000) ∧
      calculate_win_probability ra (ra + 3000) < 1 / 10 ^ (19 : Nat) ∧
      calculate_win_probability (ra + 3000) ra = 1 - 1 / (1 + 10 ^ (20 : Nat)) := by
  have h20 : (ra + 3000 - ra) / DIVISOR = (20 : Rat) := by
    rw [show ra + 3000 - ra = (3000 : Rat) by ring]
    norm_num [DIVISOR]
  have hm20 : (ra - (ra + 3000)) / DIVISOR = (-20 : Rat) := by
    rw [show ra - (ra + 3000) = (-3000 : Rat) by ring]
    norm_num [DIVISOR]
  have hten : tenPow (20 : Rat) = 10 ^ (20 : Nat) := by decide
  have htenm : tenPow (-20 : Rat) = 1 / 10 ^ (20 : Nat) := by decide
  have hno : ¬ OVERFLOW_LIMIT < (20 : Rat) := by decide
  have hnom : ¬ OVERFLOW_LIMIT < (-20 : Rat) := by decide
  refine ⟨?_, ?_, ?_, ?_, ?_⟩
  · intro rb h
    unfold calculate_win_probability
    rw [if_pos h]
  · unfold calculate_win_probability
    rw [h20, if_neg hno, hten]
  · unfold calculate_win_probability
    rw [h20, if_neg hno, hten]
    positivity
  · unfold calculate_win_probability
    rw [h20, if_neg hno, hten]
    rw [div_lt_div_iff₀ (by positivity) (by positivity)]
    norm_num
  · unfold calculate_win_probability
    rw [hm20, if_neg hnom, htenm]
    rw [eq_sub_iff_add_eq, div_add_div _ _ (by positivity) (by positivity)]
    rw [div_eq_one_iff_eq (by positivity)]
    ring

/-- Witness for the amended claim C6: a rating gap of `150 * 309` puts the
exponent at 309, above the overflow threshold, and the clamp fires. -/
theorem win_probability_clamp_witness :
    calculate_win_probability 1200 47550 = 0 := by
  have h := (win_probability_clamp_and_gap 1200).1 47550 (by decide)
  rw [h]
  decide

/-- Claim C7: the spec requires the number of skipped (malformed-result)
rows to be surfaced to the caller of `calculate_ratings`; the source
returns only the annotated match log — the skipped row is emitted
unchanged, no counter exists anywhere in the function, so the skip is the
silent no-op the spec warns against.  Evaluating the embedded source at a
one-row malformed log: the return value is just the log. -/
theorem calculate_ratings_returns_only_the_log :
    calculate_ratings [mBad] [] = [mBad] ∧
      ratingUpdates [mBad] [] = [] ∧
      finalRatings [mBad] [] = ([] : RState) := by
  decide

/-- Claim C8: with both players seeded at 1200 and a decisive "2-0"
result, `K = 16` and `D = 150`: each side's expected score is exactly 1/2,
the winner's stored post-match rating is exactly 1208, the loser's exactly
1192, and the swing is symmetric. -/
theorem equal_seeds_decisive_match_scenario :
    K_FACTOR = 16 ∧ DIVISOR = 150 ∧
      calculate_win_probability 1200 1200 = 1 / 2 ∧
      calculate_ratings [mAB] seedsAB =
        [{ mAB with ratingP1 := 1208, ratingP2 := 1192 }] ∧
      finalRatings [mAB] seedsAB = [("A", 1208), ("B", 1192)] ∧
      ((1208 : Rat) - 1200) = -((1192 : Rat) - 1200) := by
  decide

/-- Claim C9: none of the three core operations mutates its caller's
tables.  `calculate_ratings` and `calculate_championship_stats` work on a
private copy; `generate_leaderboard_with_changes` reassigns the `Date`
column to `pd.to_datetime` of itself, which on the well-typed dates of the
interface contract is the identity, leaving every row of the caller's log
equal to what it was. -/
theorem core_operations_leave_inputs_unchanged (rows : List MatchRow)
    (seeds : List SeedRow) :
    logAfterCalculateRatings rows seeds = rows ∧
      seedsAfterCalculateRatings rows seeds = seeds ∧
      logAfterChampionshipStats rows = rows ∧
      logAfterLeaderboard rows = rows := by
  refine ⟨rfl, rfl, rfl, ?_⟩
  unfold logAfterLeaderboard pdToDatetime
  simp

end RatingTracker
